import Mathlib

set_option maxRecDepth 100000

/-!
Verification development for the chat relay pipeline of the repository:
the server-side text chunker and SSE event encoder
(`src/app/api/chat/send/route.ts`) and the client-side incremental stream
consumer (`ChatInterface.handleSubmit` / `handleSendMessage`).
Text is modelled as `List Char`; JavaScript string primitives
(`lastIndexOf`, `slice`, `trim`, `split`) are embedded as Lean functions
with the same semantics on that representation.
-/

namespace ChatbotModel

/-- Whitespace test matching exactly what ECMAScript `String.prototype.trim`
removes: *WhiteSpace* (TAB U+0009, VT U+000B, FF U+000C, SP U+0020,
NBSP U+00A0, ZWNBSP U+FEFF, and the Space_Separator category U+0020,
U+00A0, U+1680, U+2000–U+200A, U+202F, U+205F, U+3000) together with
*LineTerminator* (LF U+000A, CR U+000D, LS U+2028, PS U+2029). -/
def isWs (c : Char) : Bool :=
  let n := c.toNat
  n == 0x09 || n == 0x0a || n == 0x0b || n == 0x0c || n == 0x0d || n == 0x20 ||
  n == 0xa0 || n == 0x1680 || (decide (0x2000 ≤ n) && decide (n ≤ 0x200a)) ||
  n == 0x2028 || n == 0x2029 || n == 0x202f || n == 0x205f || n == 0x3000 ||
  n == 0xfeff

/-- JavaScript `s.trimStart()` on the character list. -/
def trimLeft (l : List Char) : List Char := l.dropWhile isWs

/-- JavaScript `s.trimEnd()` on the character list. -/
def trimRight (l : List Char) : List Char := (l.reverse.dropWhile isWs).reverse

/-- JavaScript `s.trim()` on the character list. -/
def trimChars (l : List Char) : List Char := trimRight (trimLeft l)

/-- Index of the last occurrence of `c` in `l`, if any. -/
def lastIdx : List Char → Char → Option Nat
  | [], _ => none
  | x :: xs, c =>
    match lastIdx xs c with
    | some i => some (i + 1)
    | none => if x = c then some 0 else none

/-- JavaScript `text.lastIndexOf(c, fromIndex)`: the greatest index
`≤ fromIndex` at which `c` occurs, `-1` when there is none. -/
def lastIndexOf (text : List Char) (c : Char) (fromIndex : Nat) : Int :=
  match lastIdx (text.take (fromIndex + 1)) c with
  | some i => (i : Int)
  | none => -1

/-- JavaScript `text.slice(a, b)` (for `0 ≤ a ≤ b`). -/
def sliceChars (text : List Char) (a b : Nat) : List Char :=
  (text.drop a).take (b - a)

/-- One iteration of the cut-point search of `chunkText`
(route.ts lines 10-30): tentative end `cur + chunkSize`; if that is still
inside the text, prefer the last sentence terminator (`.`, `?`, `!`) at or
before it (cutting just after the terminator), else the last space, else
keep the raw window boundary. -/
def nextEndIndex (text : List Char) (chunkSize cur : Nat) : Nat :=
  let e := cur + chunkSize
  if e < text.length then
    let ms := max (max (lastIndexOf text '.' e) (lastIndexOf text '?' e))
      (lastIndexOf text '!' e)
    if (cur : Int) < ms then ms.toNat + 1
    else
      let sp := lastIndexOf text ' ' e
      if (cur : Int) < sp then sp.toNat
      else e
  else e

/-- The `while (currentIndex < text.length)` loop of `chunkText`, with an
explicit fuel argument standing for the number of remaining iterations
(the termination argument is proved separately: each iteration strictly
increases the scan position, so `text.length` iterations always suffice). -/
def chunkTextLoop (text : List Char) (chunkSize : Nat) : Nat → Nat → List (List Char)
  | _, 0 => []
  | cur, fuel + 1 =>
    if cur < text.length then
      let e := nextEndIndex text chunkSize cur
      trimChars (sliceChars text cur e) :: chunkTextLoop text chunkSize e fuel
    else []

/-- `chunkText(text, chunkSize)` of route.ts lines 5-37: scan the text in
windows, trim every produced segment, and drop segments that are empty
after trimming. -/
def chunkText (text : List Char) (chunkSize : Nat) : List (List Char) :=
  (chunkTextLoop text chunkSize 0 text.length).filter (fun c => 0 < c.length)

/-! ## Wire data model (src/types/chat.ts and the SSE payload shapes) -/

/-- A cited source, as carried in the `sources` arrays of the protocol. -/
structure Source where
  title : List Char
  url : List Char
  snippet : List Char
deriving DecidableEq, Repr

/-- Token usage counters. -/
structure Usage where
  promptTokens : Nat
  completionTokens : Nat
  totalTokens : Nat
deriving DecidableEq, Repr

/-- The upstream reply shape `N8nWebhookResponse` (src/types/chat.ts).
`output` is an `Option` whose `some []` stands for the empty string; both
`none` and `some []` are falsy under the `!n8nResponse.output` check. -/
structure N8nWebhookResponse where
  output : Option (List Char)
  sources : Option (List Source)
  usage : Option Usage
deriving DecidableEq, Repr

/-- The `backend` selector of a `ChatRequest` (`python` is the default and
primary backend; route.ts line 89 sends `body.backend || 'python'`). -/
inductive Backend where
  | python
  | gemini
  | chatgpt
deriving DecidableEq, Repr

/-- Outcome of the `fetch` to the n8n webhook as observed inside the route's
stream body: a non-2xx status (`!response.ok`), a rejection of `fetch`
itself (network failure), a 2xx reply whose body is not valid JSON, or a
parsed reply. -/
inductive UpstreamResult where
  | httpError (status : Nat)
  | networkFailure (msg : List Char)
  | invalidJson (raw : List Char)
  | parsed (r : N8nWebhookResponse)

/-- One event of the SSE wire protocol. -/
inductive StreamEvent where
  | connected
  | chunk (content : List Char) (isLast : Bool)
      (sources : Option (List Source)) (usage : Option Usage)
  | error (message : List Char)
  | done
deriving DecidableEq, Repr

def isChunkEv : StreamEvent → Bool
  | .chunk _ _ _ _ => true
  | _ => false

def isErrorEv : StreamEvent → Bool
  | .error _ => true
  | _ => false

def isTerminalEv : StreamEvent → Bool
  | .done => true
  | .error _ => true
  | _ => false

/-- The `isLast` flag of a chunk event (`false` for non-chunk events). -/
def evIsLast : StreamEvent → Bool
  | .chunk _ b _ _ => b
  | _ => false

/-- Whether a chunk event carries `sources` or `usage` metadata. -/
def hasMeta : StreamEvent → Bool
  | .chunk _ _ s u => s.isSome || u.isSome
  | _ => false

/-- Content of the last chunk event of a sequence, if any. -/
def finalChunkContent (evts : List StreamEvent) : Option (List Char) :=
  match (evts.filter isChunkEv).getLast? with
  | some (.chunk c _ _ _) => some c
  | _ => none

/-! ## The server route (src/app/api/chat/send/route.ts, POST) -/

/-- Fixed fragment of the mock fallback output before the echoed input. -/
def mockMsgA : List Char :=
  "Esta es una respuesta simulada para tu pregunta: \"".toList

/-- Fixed fragment of the mock fallback output between input and URL. -/
def mockMsgB : List Char :=
  "\". El sistema está funcionando correctamente, pero el webhook de N8N en ".toList

/-- Fixed trailing fragment of the mock fallback output. -/
def mockMsgC : List Char :=
  " no está disponible en este momento. Por favor, verifica que tu workflow de N8N esté activo y accesible.".toList

/-- The `output` of the mock fallback reply (route.ts line 101): embeds the
literal user input and the webhook URL. -/
def mockOutput (chatInput webhookUrl : List Char) : List Char :=
  mockMsgA ++ chatInput ++ mockMsgB ++ webhookUrl ++ mockMsgC

/-- The single source of the mock fallback reply (route.ts lines 102-108). -/
def mockSource : Source :=
  ⟨"Documentación N8N".toList, "https://docs.n8n.io/webhooks/".toList,
    "Información sobre configuración de webhooks en N8N".toList⟩

/-- The usage counters of the mock fallback reply (route.ts lines 109-113). -/
def mockUsage : Usage := ⟨20, 50, 70⟩

def lbrace : Char := Char.ofNat 123

def rbrace : Char := Char.ofNat 125

/-- `JSON.stringify` escaping for one character of a string value. -/
def jsonEscapeChar (c : Char) : List Char :=
  if c = '"' then ['\\', '"']
  else if c = '\\' then ['\\', '\\']
  else if c = '\n' then ['\\', 'n']
  else if c = '\r' then ['\\', 'r']
  else if c = '\t' then ['\\', 't']
  else [c]

/-- `JSON.stringify` of a string value. -/
def jsonQuote (s : List Char) : List Char :=
  '"' :: (s.flatMap jsonEscapeChar) ++ ['"']

/-- Decimal rendering of a natural number. -/
def jsonNat (n : Nat) : List Char := (toString n).toList

/-- `JSON.stringify` of one source object (field order title, url, snippet). -/
def jsonSource (s : Source) : List Char :=
  [lbrace] ++ "\"title\":".toList ++ jsonQuote s.title
    ++ ",\"url\":".toList ++ jsonQuote s.url
    ++ ",\"snippet\":".toList ++ jsonQuote s.snippet ++ [rbrace]

/-- `JSON.stringify` of a sources array. -/
def jsonSources (ss : List Source) : List Char :=
  '[' :: (List.intercalate [','] (ss.map jsonSource)) ++ [']']

/-- `JSON.stringify` of a usage object. -/
def jsonUsage (u : Usage) : List Char :=
  [lbrace] ++ "\"promptTokens\":".toList ++ jsonNat u.promptTokens
    ++ ",\"completionTokens\":".toList ++ jsonNat u.completionTokens
    ++ ",\"totalTokens\":".toList ++ jsonNat u.totalTokens ++ [rbrace]

/-- `JSON.stringify` of a chunk event object as built at route.ts
lines 123-129 and 179-185: insertion order `type`, `content`, `isLast`,
then the optional `sources` and `usage`. -/
def chunkEventJson (content : List Char) (isLast : Bool)
    (s : Option (List Source)) (u : Option Usage) : List Char :=
  [lbrace] ++ "\"type\":\"chunk\",\"content\":".toList ++ jsonQuote content
    ++ ",\"isLast\":".toList
    ++ (if isLast then "true".toList else "false".toList)
    ++ (match s with
        | none => []
        | some ss => ",\"sources\":".toList ++ jsonSources ss)
    ++ (match u with
        | none => []
        | some uu => ",\"usage\":".toList ++ jsonUsage uu)
    ++ [rbrace]

/-- `JSON.stringify(n8nResponse)` as used for the truncated dump in the
missing-output repair message (route.ts line 161); serializes the fields
the model tracks, in the shape's declaration order. -/
def jsonStringifyReply (r : N8nWebhookResponse) : List Char :=
  [lbrace] ++ (List.intercalate [','] (
    (match r.output with
     | none => []
     | some o => ["\"output\":".toList ++ jsonQuote o]) ++
    (match r.sources with
     | none => []
     | some ss => ["\"sources\":".toList ++ jsonSources ss]) ++
    (match r.usage with
     | none => []
     | some u => ["\"usage\":".toList ++ jsonUsage u]))) ++ [rbrace]

/-- Fixed prefix of the repair message synthesized when `output` is missing
or empty (route.ts line 161). -/
def synthPrefixMsg : List Char :=
  "El flujo de N8N se ejecutó correctamente pero no devolvió una respuesta válida. La estructura de la respuesta no contiene el campo \"output\" esperado. Contenido recibido: ".toList

/-- The synthesized replacement `output` (repair message plus a dump of the
received reply truncated to 200 characters). -/
def synthOutput (r : N8nWebhookResponse) : List Char :=
  synthPrefixMsg ++ (jsonStringifyReply r).take 200 ++ "...".toList

/-- Output validation of route.ts lines 158-169: when `output` is missing
or empty, substitute the repair message, an empty sources array and zeroed
usage counters; otherwise pass the reply through unchanged. This function
is total: it never fails. -/
def normalizeReply (r : N8nWebhookResponse) : N8nWebhookResponse :=
  if r.output = none ∨ r.output = some [] then
    ⟨some (synthOutput r), some [], some ⟨0, 0, 0⟩⟩
  else r

/-- Message of the error thrown when the 2xx reply body is not valid JSON
(route.ts line 152). -/
def invalidJsonMessage (raw : List Char) : List Char :=
  "Invalid JSON response from N8N: ".toList ++ raw.take 100 ++ "...".toList

/-- The chunk-emission loop (route.ts lines 119-136 and 175-193): every
chunk except the last is sent with `isLast:false` and no metadata; the
final chunk carries `isLast:true` plus the given sources/usage options. -/
def emitChunks : List (List Char) → Option (List Source) → Option Usage → List StreamEvent
  | [], _, _ => []
  | [c], s, u => [.chunk c true s u]
  | c :: c2 :: rest, s, u =>
      .chunk c false none none :: emitChunks (c2 :: rest) s u

/-- The full event sequence the route's `ReadableStream` body writes for one
chat turn (route.ts lines 74-207), as a function of the upstream outcome:
`connected` first; on `!response.ok` the mock fallback reply is chunked and
streamed ending in `done` (for every backend — the code does not branch on
`backend` inside the stream body); a network failure or an invalid-JSON
body throws, which the catch turns into a single `error` event; a parsed
reply is normalized, chunked and streamed ending in `done`, with the
normalized sources/usage attached to the last chunk when present. -/
def postEvents (backend : Backend) (chatInput webhookUrl : List Char)
    (up : UpstreamResult) : List StreamEvent :=
  StreamEvent.connected ::
    match up with
    | .httpError _ =>
        emitChunks (chunkText (mockOutput chatInput webhookUrl) 700)
          (some [mockSource]) (some mockUsage) ++ [.done]
    | .networkFailure msg => [.error msg]
    | .invalidJson raw => [.error (invalidJsonMessage raw)]
    | .parsed r =>
        let nr := normalizeReply r
        emitChunks (chunkText (nr.output.getD []) 700) nr.sources nr.usage
          ++ [.done]

/-- The literal `data: ` prefix of every SSE record. -/
def sseDataPrefix : List Char := "data: ".toList

/-- One SSE record as enqueued by the route: prefix, JSON payload, blank
line. -/
def sseRecord (json : List Char) : List Char :=
  sseDataPrefix ++ json ++ ['\n', '\n']

/-- The literal connected payload (route.ts line 77, with its space). -/
def connectedJson : List Char :=
  [lbrace] ++ "\"type\": \"connected\"".toList ++ [rbrace]

/-- The literal done payload (route.ts lines 138 and 196, with its space). -/
def doneJson : List Char :=
  [lbrace] ++ "\"type\": \"done\"".toList ++ [rbrace]

/-! ## JSON values and `JSON.parse` (client side)

The consumer calls `JSON.parse` on each `data:` line. The parser below
implements the JSON grammar over `List Char` (numbers restricted to
integers — the wire format of this protocol only ever carries integers;
`\u` escapes are not needed by the wire format either). Recursion is by
explicit fuel; `jsonParse` supplies enough fuel for any input. -/

/-- A JSON value. -/
inductive Json where
  | null
  | bool (b : Bool)
  | num (n : Int)
  | str (s : List Char)
  | arr (elems : List Json)
  | obj (fields : List (List Char × Json))

/-- JSON insignificant whitespace. -/
def jsonWs (c : Char) : Bool := c = ' ' || c = '\t' || c = '\n' || c = '\r'

def skipJsonWs (s : List Char) : List Char := s.dropWhile jsonWs

/-- Resolution of a backslash escape inside a JSON string. -/
def unescapeChar (c : Char) : Option Char :=
  if c = '"' then some '"'
  else if c = '\\' then some '\\'
  else if c = '/' then some '/'
  else if c = 'n' then some '\n'
  else if c = 't' then some '\t'
  else if c = 'r' then some '\r'
  else if c = 'b' then some '\x08'
  else if c = 'f' then some '\x0c'
  else none

/-- Parse the body of a JSON string, after the opening quote; returns the
decoded characters and the rest of the input after the closing quote. -/
def parseStringBody : Nat → List Char → Option (List Char × List Char)
  | 0, _ => none
  | _, [] => none
  | fuel + 1, c :: rest =>
    if c = '"' then some ([], rest)
    else if c = '\\' then
      match rest with
      | [] => none
      | e :: rest2 =>
        match unescapeChar e with
        | none => none
        | some c2 =>
          match parseStringBody fuel rest2 with
          | none => none
          | some (s, r) => some (c2 :: s, r)
    else
      match parseStringBody fuel rest with
      | none => none
      | some (s, r) => some (c :: s, r)

/-- Accumulate a run of decimal digits. -/
def digitsAux : Nat → List Char → Nat × List Char
  | acc, [] => (acc, [])
  | acc, c :: rest =>
    if c.isDigit then digitsAux (acc * 10 + (c.toNat - 48)) rest
    else (acc, c :: rest)

/-- Parse an integer JSON number (optional minus sign, digit run). -/
def parseNumber : List Char → Option (Int × List Char)
  | [] => none
  | '-' :: rest =>
    match rest with
    | [] => none
    | c :: _ =>
      if c.isDigit then
        let p := digitsAux 0 rest
        some (-(p.1 : Int), p.2)
      else none
  | c :: rest =>
    if c.isDigit then
      let p := digitsAux 0 (c :: rest)
      some ((p.1 : Int), p.2)
    else none

/-- Strip a literal keyword from the front of the input. -/
def stripLit (lit s : List Char) : Option (List Char) :=
  if lit.isPrefixOf s then some (s.drop lit.length) else none

mutual

/-- Parse one JSON value from the front of the input. -/
def parseValue : Nat → List Char → Option (Json × List Char)
  | 0, _ => none
  | fuel + 1, s =>
    match skipJsonWs s with
    | [] => none
    | c :: rest =>
      if c = '"' then
        match parseStringBody (fuel + 1) rest with
        | some (str, r) => some (.str str, r)
        | none => none
      else if c = lbrace then
        match skipJsonWs rest with
        | c2 :: r2 =>
          if c2 = rbrace then some (.obj [], r2)
          else
            match parseMembers fuel (c2 :: r2) with
            | some (fs, r) => some (.obj fs, r)
            | none => none
        | [] => none
      else if c = '[' then
        match skipJsonWs rest with
        | c2 :: r2 =>
          if c2 = ']' then some (.arr [], r2)
          else
            match parseElems fuel (c2 :: r2) with
            | some (vs, r) => some (.arr vs, r)
            | none => none
        | [] => none
      else if c = 't' then
        match stripLit "true".toList (c :: rest) with
        | some r => some (.bool true, r)
        | none => none
      else if c = 'f' then
        match stripLit "false".toList (c :: rest) with
        | some r => some (.bool false, r)
        | none => none
      else if c = 'n' then
        match stripLit "null".toList (c :: rest) with
        | some r => some (.null, r)
        | none => none
      else
        match parseNumber (c :: rest) with
        | some (n, r) => some (.num n, r)
        | none => none

/-- Parse the members of a JSON object, positioned at the first key;
returns the fields and the rest of the input after the closing brace. -/
def parseMembers : Nat → List Char → Option (List (List Char × Json) × List Char)
  | 0, _ => none
  | fuel + 1, s =>
    match skipJsonWs s with
    | [] => none
    | c :: rest =>
      if c = '"' then
        match parseStringBody (fuel + 1) rest with
        | none => none
        | some (key, r1) =>
          match skipJsonWs r1 with
          | ':' :: r2 =>
            match parseValue fuel r2 with
            | none => none
            | some (v, r3) =>
              match skipJsonWs r3 with
              | ',' :: r4 =>
                match parseMembers fuel r4 with
                | some (fs, r5) => some ((key, v) :: fs, r5)
                | none => none
              | c5 :: r5 =>
                if c5 = rbrace then some ([(key, v)], r5) else none
              | [] => none
          | _ => none
      else none

/-- Parse the elements of a JSON array, positioned at the first element;
returns the elements and the rest of the input after the closing bracket. -/
def parseElems : Nat → List Char → Option (List Json × List Char)
  | 0, _ => none
  | fuel + 1, s =>
    match parseValue fuel s with
    | none => none
    | some (v, r) =>
      match skipJsonWs r with
      | ',' :: r2 =>
        match parseElems fuel r2 with
        | some (vs, r3) => some (v :: vs, r3)
        | none => none
      | c2 :: r2 => if c2 = ']' then some ([v], r2) else none
      | [] => none

end

/-- `JSON.parse`: one JSON value covering the whole input (up to
whitespace); `none` models a thrown `SyntaxError`. -/
def jsonParse (s : List Char) : Option Json :=
  match parseValue (2 * s.length + 2) s with
  | some (v, rest) => if skipJsonWs rest = [] then some v else none
  | none => none

/-! ## The client stream consumer (`handleSubmit`, part_007 lines 89-140) -/

/-- Field lookup on a parsed JSON value (`data.field`): `none` models
`undefined`. -/
def jsGetField (v : Json) (key : List Char) : Option Json :=
  match v with
  | .obj fs => (fs.find? (fun p => p.1 == key)).map (fun p => p.2)
  | _ => none

/-- `data.field` when a string is expected. -/
def jsGetStr (v : Json) (key : List Char) : Option (List Char) :=
  match jsGetField v key with
  | some (.str s) => some s
  | _ => none

/-- JavaScript truthiness of a parsed JSON value (note that an empty array
is truthy). -/
def jsTruthy : Json → Bool
  | .null => false
  | .bool b => b
  | .num n => n != 0
  | .str s => !s.isEmpty
  | .arr _ => true
  | .obj _ => true

/-- JavaScript string coercion as used by `content += data.content`
(string values pass through; an absent field would stringify as
`"undefined"`, handled at the call site; the array case — JS would join
elements with commas — is never produced by this protocol's encoder). -/
def jsDisplay : Json → List Char
  | .str s => s
  | .null => "null".toList
  | .bool b => if b then "true".toList else "false".toList
  | .num n => (toString n).toList
  | .arr _ => []
  | .obj _ => "[object Object]".toList

/-- Typed reading of a numeric field, defaulting to 0. -/
def jsNumField (v : Json) (key : List Char) : Nat :=
  match jsGetField v key with
  | some (.num n) => n.toNat
  | _ => 0

/-- A parsed `sources` entry as assigned to the message. -/
def jsToSource (v : Json) : Source :=
  ⟨(jsGetStr v "title".toList).getD [], (jsGetStr v "url".toList).getD [],
    (jsGetStr v "snippet".toList).getD []⟩

def jsToSources : Json → List Source
  | .arr es => es.map jsToSource
  | _ => []

def jsToUsage (v : Json) : Usage :=
  ⟨jsNumField v "promptTokens".toList, jsNumField v "completionTokens".toList,
    jsNumField v "totalTokens".toList⟩

/-- The assistant message being accumulated by the consumer, plus (as an
observer) the list of `data:` payloads that `JSON.parse` accepted, in
order — the "events produced" by the consumer. -/
structure MsgState where
  content : List Char
  sources : Option (List Source)
  usage : Option Usage
  parsedEvents : List Json

def initMsgState : MsgState := ⟨[], none, none, []⟩

/-- Dispatch on one successfully parsed `data:` payload (part_007
lines 114-131): a `chunk` appends `content` and overwrites
`sources`/`usage` when those fields are truthy; an `error` event throws
(modelled as `Except.error` — the throw is caught by the same per-line
catch as a parse failure); anything else (`connected`, `done`) does
nothing. -/
def applyData (st : MsgState) (v : Json) : Except (List Char) MsgState :=
  if jsGetStr v "type".toList = some "chunk".toList then
    .ok { st with
      content := st.content ++
        ((jsGetField v "content".toList).map jsDisplay).getD "undefined".toList,
      sources :=
        match jsGetField v "sources".toList with
        | some sv => if jsTruthy sv then some (jsToSources sv) else st.sources
        | none => st.sources,
      usage :=
        match jsGetField v "usage".toList with
        | some uv => if jsTruthy uv then some (jsToUsage uv) else st.usage
        | none => st.usage }
  else if jsGetStr v "type".toList = some "error".toList then
    .error (((jsGetField v "error".toList).map jsDisplay).getD "undefined".toList)
  else
    .ok st

/-- Per-line step of the client read loop (part_007 lines 109-136): only
lines starting with `data: ` are considered; `JSON.parse` of the rest of
the line and the event dispatch sit inside one try/catch, so a parse
failure and the throw on an `error` event are both caught, logged and
skipped. -/
def processLine (st : MsgState) (line : List Char) : MsgState :=
  if sseDataPrefix.isPrefixOf line then
    match jsonParse (line.drop 6) with
    | none => st
    | some v =>
      let st2 := { st with parsedEvents := st.parsedEvents ++ [v] }
      match applyData st2 v with
      | .ok st3 => st3
      | .error _ => st2
  else st

/-- Handling of one `reader.read()` result (part_007 lines 106-136): the
read is decoded and split on newlines independently of every other read —
no carry-over buffer of a trailing partial line is kept. -/
def processRead (st : MsgState) (read : List Char) : MsgState :=
  (read.splitOn '\n').foldl processLine st

/-- The whole read loop (part_007 lines 101-137) over the sequence of reads
delivered by the byte stream. When the reader reports `done` the loop just
breaks: there is no check that a terminal event was ever received, and no
failure path exists inside the loop (every throw inside it is caught by
the per-line catch), so the fold is total and its result is what the
caller observes. -/
def consumeStream (reads : List (List Char)) : MsgState :=
  reads.foldl processRead initMsgState

/-! ## Concrete scenario inputs used by individual claims -/

/-- A 713-character text whose only sentence terminator sits at offset 712. -/
def c3Text : List Char := List.replicate 712 'a' ++ ['.']

/-- A 713-character text whose only sentence terminator sits at offset 700
(exactly the tentative window end for chunk size 700). -/
def c3TextB : List Char := List.replicate 700 'a' ++ '.' :: List.replicate 12 'a'

/-- First wire record of the fragmentation scenario: a chunk event
`"Hola "` with `isLast:false`. -/
def c2Rec1 : List Char := sseRecord (chunkEventJson "Hola ".toList false none none)

/-- Second wire record of the fragmentation scenario: a chunk event
`"mundo"` with `isLast:true`. -/
def c2Rec2 : List Char := sseRecord (chunkEventJson "mundo".toList true none none)

/-- The two network reads of the fragmentation scenario: read 1 is the
first `k` characters of record 1 (ending mid-line for `1 ≤ k < 55`, the
record's line being 55 characters long); read 2 carries the rest of
record 1 plus the whole of record 2. -/
def c2Reads (k : Nat) : List (List Char) := [c2Rec1.take k, c2Rec1.drop k ++ c2Rec2]

/-- Byte stream of the abrupt-close scenario: a `connected` record and a
chunk record with `isLast:false`, then end of stream — no `done` or
`error` record ever arrives. -/
def c6Read : List Char :=
  sseRecord connectedJson ++ sseRecord (chunkEventJson "Hola".toList false none none)

/-! ## Lemmas about trimming -/

theorem length_trimChars_le (l : List Char) : (trimChars l).length ≤ l.length := by
  have h1 : (trimLeft l).length ≤ l.length := (List.dropWhile_suffix isWs).length_le
  have h2 : (trimRight (trimLeft l)).length ≤ (trimLeft l).length := by
    simpa [trimRight] using
      (@List.dropWhile_suffix _ (trimLeft l).reverse isWs).length_le
  exact le_trans h2 h1

theorem trimRight_isPrefix (l : List Char) : trimRight l <+: l := by
  rcases @List.dropWhile_suffix _ l.reverse isWs with ⟨t, ht⟩
  refine ⟨t.reverse, ?_⟩
  have h2 : (t ++ l.reverse.dropWhile isWs).reverse = l := by
    rw [ht, List.reverse_reverse]
  simpa [trimRight, List.reverse_append] using h2

theorem trimChars_isInfix (l : List Char) : trimChars l <:+: l :=
  ((trimRight_isPrefix (trimLeft l)).isInfix).trans (List.dropWhile_suffix isWs).isInfix

theorem dropWhile_dropWhile_self (p : Char → Bool) (l : List Char) :
    (l.dropWhile p).dropWhile p = l.dropWhile p := by
  induction l with
  | nil => rfl
  | cons x xs ih =>
    by_cases h : p x
    · simp [List.dropWhile_cons, h, ih]
    · simp [List.dropWhile_cons, h]

theorem trimRight_idem (l : List Char) : trimRight (trimRight l) = trimRight l := by
  simp [trimRight, dropWhile_dropWhile_self]

theorem head_false_of_dropWhile_eq_self {p : Char → Bool} {x : Char} {xs : List Char}
    (h : (x :: xs).dropWhile p = x :: xs) : p x = false := by
  by_contra hx
  have hpx : p x = true := by revert hx; cases p x <;> simp
  rw [List.dropWhile_cons, if_pos hpx] at h
  have := (List.dropWhile_suffix (l := xs) p).length_le
  have := congrArg List.length h
  simp at this
  omega

theorem trimChars_idem (l : List Char) : trimChars (trimChars l) = trimChars l := by
  unfold trimChars
  have hLeft : trimLeft (trimRight (trimLeft l)) = trimRight (trimLeft l) := by
    cases hm : trimLeft l with
    | nil => simp [trimRight, trimLeft, List.dropWhile_nil]
    | cons x xs =>
      have hx : isWs x = false := by
        apply head_false_of_dropWhile_eq_self
        have : trimLeft (trimLeft l) = trimLeft l := dropWhile_dropWhile_self isWs l
        rw [hm] at this
        exact this
      cases htr : trimRight (x :: xs) with
      | nil => simp [trimLeft]
      | cons y ys =>
        rcases trimRight_isPrefix (x :: xs) with ⟨t, ht⟩
        rw [htr] at ht
        have hy : y = x := by
          have := ht
          simp only [List.cons_append] at this
          exact (List.cons.injEq _ _ _ _).mp this |>.1
        subst hy
        simp [trimLeft, List.dropWhile_cons, hx]
  rw [hLeft, trimRight_idem]

theorem mem_dropWhile_of_mem {p : Char → Bool} {c : Char} {l : List Char}
    (hc : c ∈ l) (hw : p c = false) : c ∈ l.dropWhile p := by
  induction l with
  | nil => cases hc
  | cons x xs ih =>
    by_cases hx : p x
    · rw [List.dropWhile_cons, if_pos hx]
      rcases List.mem_cons.mp hc with h1 | h2
      · subst h1; rw [hw] at hx; cases hx
      · exact ih h2
    · rw [List.dropWhile_cons, if_neg hx]
      exact hc

theorem trimChars_ne_nil {c : Char} {l : List Char} (hc : c ∈ l) (hw : isWs c = false) :
    trimChars l ≠ [] := by
  have h1 : c ∈ trimLeft l := mem_dropWhile_of_mem hc hw
  have h2 : c ∈ (trimLeft l).reverse := List.mem_reverse.mpr h1
  have h3 : c ∈ (trimLeft l).reverse.dropWhile isWs := mem_dropWhile_of_mem h2 hw
  have h4 : c ∈ trimChars l := by
    unfold trimChars trimRight
    exact List.mem_reverse.mpr h3
  exact List.ne_nil_of_mem h4

theorem trimLeft_cons_of_head {x : Char} (xs : List Char) (h : isWs x = false) :
    trimLeft (x :: xs) = x :: xs := by
  simp [trimLeft, List.dropWhile_cons, h]

theorem trimRight_concat_of_last (l : List Char) {x : Char} (h : isWs x = false) :
    trimRight (l ++ [x]) = l ++ [x] := by
  simp [trimRight, List.reverse_append, List.dropWhile_cons, h]

/-! ## Lemmas about the cut-point search -/

theorem lastIdx_lt_length {l : List Char} {c : Char} {i : Nat}
    (h : lastIdx l c = some i) : i < l.length := by
  induction l generalizing i with
  | nil => simp [lastIdx] at h
  | cons x xs ih =>
    rw [lastIdx] at h
    cases hx : lastIdx xs c with
    | some j =>
      rw [hx] at h
      cases h
      have := ih hx
      simp
      omega
    | none =>
      rw [hx] at h
      by_cases hc : x = c
      · rw [if_pos hc] at h
        cases h
        simp
      · rw [if_neg hc] at h
        cases h

theorem lastIndexOf_le (text : List Char) (c : Char) (f : Nat) :
    lastIndexOf text c f ≤ (f : Int) := by
  unfold lastIndexOf
  cases h : lastIdx (text.take (f + 1)) c with
  | none => simp; omega
  | some i =>
    have h1 : i < (text.take (f + 1)).length := lastIdx_lt_length h
    have h2 : (text.take (f + 1)).length ≤ f + 1 := List.length_take_le _ _
    simp
    omega

theorem nextEndIndex_lt {text : List Char} {n cur : Nat} (hn : 1 ≤ n)
    (hc : cur < text.length) : cur < nextEndIndex text n cur := by
  unfold nextEndIndex
  by_cases he : cur + n < text.length
  · rw [if_pos he]
    by_cases hms : (cur : Int) <
        max (max (lastIndexOf text '.' (cur + n)) (lastIndexOf text '?' (cur + n)))
          (lastIndexOf text '!' (cur + n))
    · rw [if_pos hms]
      omega
    · rw [if_neg hms]
      by_cases hsp : (cur : Int) < lastIndexOf text ' ' (cur + n)
      · rw [if_pos hsp]
        omega
      · rw [if_neg hsp]
        omega
  · rw [if_neg he]
    omega

theorem nextEndIndex_le {text : List Char} (n cur : Nat) :
    nextEndIndex text n cur ≤ cur + n + 1 := by
  unfold nextEndIndex
  by_cases he : cur + n < text.length
  · rw [if_pos he]
    have h1 := lastIndexOf_le text '.' (cur + n)
    have h2 := lastIndexOf_le text '?' (cur + n)
    have h3 := lastIndexOf_le text '!' (cur + n)
    have h4 := lastIndexOf_le text ' ' (cur + n)
    by_cases hms : (cur : Int) <
        max (max (lastIndexOf text '.' (cur + n)) (lastIndexOf text '?' (cur + n)))
          (lastIndexOf text '!' (cur + n))
    · rw [if_pos hms]
      have : max (max (lastIndexOf text '.' (cur + n)) (lastIndexOf text '?' (cur + n)))
          (lastIndexOf text '!' (cur + n)) ≤ ((cur + n : Nat) : Int) := by
        apply max_le (max_le h1 h2) h3
      omega
    · rw [if_neg hms]
      by_cases hsp : (cur : Int) < lastIndexOf text ' ' (cur + n)
      · rw [if_pos hsp]
        omega
      · rw [if_neg hsp]
        omega
  · rw [if_neg he]
    omega

/-! ## Lemmas about the chunking loop -/

theorem chunkTextLoop_nil_of_ge {text : List Char} {n cur : Nat}
    (h : text.length ≤ cur) : ∀ fuel, chunkTextLoop text n cur fuel = [] := by
  intro fuel
  cases fuel with
  | zero => rfl
  | succ m => simp [chunkTextLoop, Nat.not_lt.mpr h]

theorem chunkTextLoop_fuel_eq {text : List Char} {n : Nat} (hn : 1 ≤ n) :
    ∀ (f1 : Nat) {cur : Nat} (f2 : Nat), text.length - cur ≤ f1 →
      text.length - cur ≤ f2 →
      chunkTextLoop text n cur f1 = chunkTextLoop text n cur f2 := by
  intro f1
  induction f1 with
  | zero =>
    intro cur f2 h1 _
    have hge : text.length ≤ cur := by omega
    rw [chunkTextLoop_nil_of_ge hge, chunkTextLoop_nil_of_ge hge]
  | succ m ih =>
    intro cur f2 h1 h2
    by_cases hc : cur < text.length
    · cases f2 with
      | zero => omega
      | succ k =>
        have hlt := nextEndIndex_lt hn hc
        simp only [chunkTextLoop, if_pos hc]
        congr 1
        exact ih _ (by omega) (by omega)
    · rw [chunkTextLoop_nil_of_ge (Nat.not_lt.mp hc), chunkTextLoop_nil_of_ge (Nat.not_lt.mp hc)]

theorem chunkTextLoop_mem {text : List Char} {n : Nat} :
    ∀ {fuel cur : Nat} {seg : List Char}, seg ∈ chunkTextLoop text n cur fuel →
      ∃ a, a < text.length ∧ seg = trimChars (sliceChars text a (nextEndIndex text n a)) := by
  intro fuel
  induction fuel with
  | zero =>
    intro cur seg h
    simp [chunkTextLoop] at h
  | succ m ih =>
    intro cur seg h
    by_cases hc : cur < text.length
    · simp only [chunkTextLoop, if_pos hc] at h
      rcases List.mem_cons.mp h with h1 | h2
      · exact ⟨cur, hc, h1⟩
      · exact ih h2
    · simp [chunkTextLoop, hc] at h

theorem sliceChars_isInfix (text : List Char) (a b : Nat) :
    sliceChars text a b <:+: text := by
  refine ⟨text.take a, (text.drop a).drop (b - a), ?_⟩
  rw [sliceChars, List.append_assoc, List.take_append_drop, List.take_append_drop]

theorem length_sliceChars_le (text : List Char) (a b : Nat) :
    (sliceChars text a b).length ≤ b - a := by
  rw [sliceChars]
  exact List.length_take_le _ _

theorem chunkText_has_nonempty {text : List Char} {n : Nat} (hn : 1 ≤ n) :
    ∀ (fuel cur : Nat), text.length - cur ≤ fuel →
      (∃ c ∈ text.drop cur, isWs c = false) →
      ∃ seg ∈ chunkTextLoop text n cur fuel, seg ≠ [] := by
  intro fuel
  induction fuel with
  | zero =>
    intro cur h1 h2
    rcases h2 with ⟨c, hc, _⟩
    rw [List.drop_eq_nil_of_le (by omega)] at hc
    cases hc
  | succ m ih =>
    intro cur h1 h2
    by_cases hc : cur < text.length
    · have hlt := nextEndIndex_lt hn hc
      set e := nextEndIndex text n cur with he
      have hsplit : text.drop cur = sliceChars text cur e ++ text.drop e := by
        rw [sliceChars]
        have : text.drop e = (text.drop cur).drop (e - cur) := by
          rw [List.drop_drop]
          congr 1
          omega
        rw [this, List.take_append_drop]
      rcases h2 with ⟨c, hcmem, hw⟩
      rw [hsplit] at hcmem
      rcases List.mem_append.mp hcmem with hin | hin
      · refine ⟨trimChars (sliceChars text cur e), ?_, trimChars_ne_nil hin hw⟩
        simp [chunkTextLoop, if_pos hc, ← he]
      · rcases ih e (by omega) ⟨c, hin, hw⟩ with ⟨seg, hsegmem, hsegne⟩
        refine ⟨seg, ?_, hsegne⟩
        simp only [chunkTextLoop, if_pos hc, ← he]
        exact List.mem_cons_of_mem _ hsegmem
    · rcases h2 with ⟨c, hcmem, _⟩
      rw [List.drop_eq_nil_of_le (Nat.not_lt.mp hc)] at hcmem
      cases hcmem

theorem chunkText_ne_nil {text : List Char} {n : Nat} {c : Char} (hn : 1 ≤ n)
    (hc : c ∈ text) (hw : isWs c = false) : chunkText text n ≠ [] := by
  have hex : ∃ seg ∈ chunkTextLoop text n 0 text.length, seg ≠ [] := by
    apply chunkText_has_nonempty hn text.length 0
    · omega
    · exact ⟨c, by simpa using hc, hw⟩
  rcases hex with ⟨seg, hmem, hne⟩
  have : seg ∈ chunkText text n := by
    rw [chunkText]
    exact List.mem_filter.mpr ⟨hmem, by simpa using List.length_pos.mpr hne⟩
  exact List.ne_nil_of_mem this

theorem chunkText_short {text : List Char} {n : Nat} (h1 : 0 < text.length)
    (h2 : text.length ≤ n) :
    chunkTextLoop text n 0 text.length = [trimChars text] := by
  cases hl : text.length with
  | zero => omega
  | succ m =>
    have hno : ¬ (n < text.length) := by omega
    have hnext : nextEndIndex text n 0 = n := by
      simp [nextEndIndex, hno]
    simp only [chunkTextLoop, if_pos (by omega : 0 < text.length), hnext]
    have hslice : sliceChars text 0 n = text := by
      rw [sliceChars, List.drop_zero, Nat.sub_zero]
      exact List.take_of_length_le h2
    rw [hslice, chunkTextLoop_nil_of_ge (by omega)]

/-! ## Lemmas about chunk emission and the event stream -/

theorem emitChunks_ne_nil {cs : List (List Char)} (s : Option (List Source))
    (u : Option Usage) (h : cs ≠ []) : emitChunks cs s u ≠ [] := by
  cases cs with
  | nil => exact absurd rfl h
  | cons x xs =>
    cases xs with
    | nil => simp [emitChunks]
    | cons y ys => simp [emitChunks]

theorem emitChunks_eq_concat {cs : List (List Char)} (s : Option (List Source))
    (u : Option Usage) (h : cs ≠ []) :
    emitChunks cs s u =
      (cs.dropLast.map (fun c => StreamEvent.chunk c false none none)) ++
        [StreamEvent.chunk (cs.getLast h) true s u] := by
  induction cs with
  | nil => exact absurd rfl h
  | cons x xs ih =>
    cases xs with
    | nil => simp [emitChunks]
    | cons y ys =>
      have hne : y :: ys ≠ [] := by simp
      rw [show emitChunks (x :: y :: ys) s u =
            StreamEvent.chunk x false none none :: emitChunks (y :: ys) s u from rfl,
        ih hne]
      simp [List.getLast_cons hne]

theorem emitChunks_all_chunk (cs : List (List Char)) (s : Option (List Source))
    (u : Option Usage) : ∀ e ∈ emitChunks cs s u, isChunkEv e = true := by
  induction cs with
  | nil => intro e he; simp [emitChunks] at he
  | cons x xs ih =>
    cases xs with
    | nil =>
      intro e he
      simp [emitChunks] at he
      simp [he, isChunkEv]
    | cons y ys =>
      intro e he
      rw [show emitChunks (x :: y :: ys) s u =
            StreamEvent.chunk x false none none :: emitChunks (y :: ys) s u from rfl] at he
      rcases List.mem_cons.mp he with h1 | h2
      · simp [h1, isChunkEv]
      · exact ih e h2

theorem emitChunks_dropLast_noMeta (cs : List (List Char)) (s : Option (List Source))
    (u : Option Usage) : ∀ e ∈ (emitChunks cs s u).dropLast, hasMeta e = false := by
  intro e he
  by_cases hne : cs = []
  · subst hne; simp [emitChunks] at he
  · rw [emitChunks_eq_concat s u hne, List.dropLast_concat] at he
    rcases List.mem_map.mp he with ⟨c, _, hc⟩
    simp [← hc, hasMeta]

theorem emitChunks_isLast_map {cs : List (List Char)} (s : Option (List Source))
    (u : Option Usage) (h : cs ≠ []) :
    (emitChunks cs s u).map evIsLast =
      List.replicate (cs.length - 1) false ++ [true] := by
  rw [emitChunks_eq_concat s u h, List.map_append, List.map_map]
  have hconst : (evIsLast ∘ fun c => StreamEvent.chunk c false none none) =
      fun _ => false := by
    funext c; rfl
  rw [hconst, List.map_const', List.length_dropLast]
  simp [evIsLast]

/-! ## Lemmas about the mock fallback output -/

theorem mockOutput_cons (ci url : List Char) :
    mockOutput ci url = 'E' :: (mockMsgA.tail ++ ci ++ mockMsgB ++ url ++ mockMsgC) := by
  have hA : mockMsgA = 'E' :: mockMsgA.tail := by decide
  conv_lhs => rw [mockOutput, hA]
  simp [List.append_assoc]

theorem mockOutput_concat (ci url : List Char) :
    mockOutput ci url =
      (mockMsgA ++ ci ++ mockMsgB ++ url ++ mockMsgC.dropLast) ++ ['.'] := by
  have hC : mockMsgC = mockMsgC.dropLast ++ ['.'] := by decide
  conv_lhs => rw [mockOutput, hC]
  simp [List.append_assoc]

theorem trim_mockOutput (ci url : List Char) :
    trimChars (mockOutput ci url) = mockOutput ci url := by
  have h1 : trimLeft (mockOutput ci url) = mockOutput ci url := by
    rw [mockOutput_cons]
    exact trimLeft_cons_of_head _ (by decide)
  have h2 : trimRight (mockOutput ci url) = mockOutput ci url := by
    conv_lhs => rw [mockOutput_concat]
    rw [trimRight_concat_of_last _ (by decide)]
    exact (mockOutput_concat ci url).symm
  rw [trimChars, h1, h2]

theorem mockOutput_mem_E (ci url : List Char) : 'E' ∈ mockOutput ci url := by
  rw [mockOutput_cons]
  exact List.mem_cons_self _ _

theorem chatInput_infix_mockOutput (ci url : List Char) :
    ci <:+: mockOutput ci url := by
  refine ⟨mockMsgA, mockMsgB ++ url ++ mockMsgC, ?_⟩
  rw [mockOutput]
  simp [List.append_assoc]

theorem mockOutput_length_pos (ci url : List Char) : 0 < (mockOutput ci url).length := by
  rw [mockOutput_cons]
  simp

theorem chunkText_mockOutput_short {ci url : List Char}
    (h : (mockOutput ci url).length ≤ 700) :
    chunkText (mockOutput ci url) 700 = [mockOutput ci url] := by
  rw [chunkText, chunkText_short (mockOutput_length_pos ci url) h, trim_mockOutput]
  have : 0 < (mockOutput ci url).length := mockOutput_length_pos ci url
  simp [List.filter, this]

/-! ## Consumer helper lemmas -/

theorem processRead_done (st : MsgState) :
    processRead st (sseRecord doneJson) =
      { st with parsedEvents := st.parsedEvents ++
          [Json.obj [("type".toList, Json.str "done".toList)]] } := rfl

/-! ## The claims -/

/-- C1: for every chat turn handled by the SSE route, the written event
sequence is exactly one `Connected` first, then zero or more `Chunk`
events, then exactly one terminal event (`Done` or `Error`) last, with
nothing after the terminal one; and `sources`/`usage` appear on at most
the final `Chunk`. -/
theorem c1_event_ordering (backend : Backend) (chatInput webhookUrl : List Char)
    (up : UpstreamResult) :
    ∃ mid t, postEvents backend chatInput webhookUrl up =
        StreamEvent.connected :: (mid ++ [t]) ∧
      (∀ e ∈ mid, isChunkEv e = true) ∧ isTerminalEv t = true ∧
      (∀ e ∈ mid.dropLast, hasMeta e = false) := by
  cases up with
  | networkFailure msg =>
    exact ⟨[], .error msg, rfl, by simp, rfl, by simp⟩
  | invalidJson raw =>
    exact ⟨[], .error (invalidJsonMessage raw), rfl, by simp, rfl, by simp⟩
  | httpError status =>
    exact ⟨emitChunks (chunkText (mockOutput chatInput webhookUrl) 700)
        (some [mockSource]) (some mockUsage), .done, rfl,
      emitChunks_all_chunk _ _ _, rfl, emitChunks_dropLast_noMeta _ _ _⟩
  | parsed r =>
    exact ⟨emitChunks (chunkText ((normalizeReply r).output.getD []) 700)
        (normalizeReply r).sources (normalizeReply r).usage, .done, rfl,
      emitChunks_all_chunk _ _ _, rfl, emitChunks_dropLast_noMeta _ _ _⟩

/-- C3 counterexample: in `c3Text` the only sentence terminator sits at
offset 712, yet the first segment of `chunkText c3Text 700` has length
700 — it ends at offset 700, not at offset 712. -/
theorem c3_counterexample :
    c3Text[712]? = some '.' ∧
    (chunkText c3Text 700).head?.map List.length = some 700 ∧
    (700 : Nat) ≠ 712 ∧ (700 : Nat) ≠ 713 := by decide

/-- C3 amended: the backward search only reaches terminators at or before
the tentative window end (index 700 for `n = 700`): with the terminator at
offset 712 and no terminator or space before it, the first segment ends at
the raw window boundary 700; the inclusive-terminator cut shows up only
for a terminator at or before index 700 — with it exactly at index 700 the
first segment ends at offset 701, one past the window. -/
theorem c3_boundary :
    (chunkText c3Text 700).head? = some (List.replicate 700 'a') ∧
    (chunkText c3TextB 700).head? = some (List.replicate 700 'a' ++ ['.']) := by decide

/-- C4 counterexample: for an 800-character input of `'z'`s, the mock
fallback text spans several chunks and the final chunk's content does not
contain the literal input as a substring. -/
theorem c4_counterexample :
    (finalChunkContent (postEvents .python (List.replicate 800 'z') "u".toList
        (.httpError 500))).map
      (fun c => decide (List.replicate 800 'z' <:+: c)) = some false := by decide

/-- C4 amended: on a non-2xx upstream status the route (for the default
backend `python`, as for every backend) still emits
`Connected, Chunk*, Done`, the final chunk carrying `sources` of length 1
and `usage.totalTokens = 70`; and whenever the synthesized fallback text
fits into a single chunk (length at most 700 — e.g. input `"Hola"`), that
single final chunk's content contains the literal user input as a
substring. -/
theorem c4_http_fallback (ci url : List Char) (status : Nat) :
    (∃ mid c, postEvents .python ci url (.httpError status) =
        StreamEvent.connected :: ((mid ++
          [StreamEvent.chunk c true (some [mockSource]) (some mockUsage)]) ++
          [StreamEvent.done]) ∧
      (∀ e ∈ mid, isChunkEv e = true ∧ hasMeta e = false)) ∧
    ((mockOutput ci url).length ≤ 700 →
      postEvents .python ci url (.httpError status) =
        [StreamEvent.connected,
         StreamEvent.chunk (mockOutput ci url) true (some [mockSource]) (some mockUsage),
         StreamEvent.done] ∧ ci <:+: mockOutput ci url) ∧
    [mockSource].length = 1 ∧ mockUsage.totalTokens = 70 := by
  refine ⟨?_, ?_, rfl, rfl⟩
  · have hne : chunkText (mockOutput ci url) 700 ≠ [] :=
      chunkText_ne_nil (by omega) (mockOutput_mem_E ci url) (by decide)
    refine ⟨(chunkText (mockOutput ci url) 700).dropLast.map
        (fun c => StreamEvent.chunk c false none none),
      (chunkText (mockOutput ci url) 700).getLast hne, ?_, ?_⟩
    · show StreamEvent.connected ::
          (emitChunks (chunkText (mockOutput ci url) 700)
            (some [mockSource]) (some mockUsage) ++ [StreamEvent.done]) = _
      rw [emitChunks_eq_concat _ _ hne]
    · intro e he
      rcases List.mem_map.mp he with ⟨c, _, hc⟩
      exact ⟨by simp [← hc, isChunkEv], by simp [← hc, hasMeta]⟩
  · intro h
    rw [show postEvents .python ci url (.httpError status) =
          StreamEvent.connected ::
            (emitChunks (chunkText (mockOutput ci url) 700)
              (some [mockSource]) (some mockUsage) ++ [StreamEvent.done]) from rfl,
      chunkText_mockOutput_short h]
    exact ⟨rfl, chatInput_infix_mockOutput ci url⟩

/-- C4 witness: the single-chunk condition holds for input `"Hola"` and a
short webhook URL, and the amended conclusion follows there. -/
theorem c4_witness :
    ((mockOutput "Hola".toList "http://n8n.local/webhook".toList).length ≤ 700) ∧
    (postEvents .python "Hola".toList "http://n8n.local/webhook".toList (.httpError 500) =
      [StreamEvent.connected,
       StreamEvent.chunk (mockOutput "Hola".toList "http://n8n.local/webhook".toList)
         true (some [mockSource]) (some mockUsage),
       StreamEvent.done] ∧
      "Hola".toList <:+: mockOutput "Hola".toList "http://n8n.local/webhook".toList) :=
  ⟨by decide,
    (c4_http_fallback "Hola".toList "http://n8n.local/webhook".toList 500).2.1 (by decide)⟩

/-- C5 counterexample: a non-2xx upstream status for the primary/default
backend `python` produces no `Error` event at all — the route responds
with fallback chunks, contradicting the claim that primary-backend
upstream failures are surfaced as a stream `Error`. -/
theorem c5_counterexample :
    (postEvents .python "Hola".toList "u".toList (.httpError 500)).filter isErrorEv = [] ∧
    (postEvents .python "Hola".toList "u".toList (.httpError 500)).filter isChunkEv ≠ [] := by
  decide

/-- C5 amended: the route does not branch on the backend: a non-2xx HTTP
status is recovered by fallback synthesis for every backend (including the
primary), while a network failure or an invalid-JSON body is surfaced
in-band as a single stream `Error` event for every backend. -/
theorem c5_failure_handling :
    (∀ (b : Backend) (ci url : List Char) (status : Nat),
      ∃ mid, postEvents b ci url (.httpError status) =
          StreamEvent.connected :: (mid ++ [StreamEvent.done]) ∧
        ∀ e ∈ mid, isChunkEv e = true) ∧
    (∀ (b : Backend) (ci url msg : List Char),
      postEvents b ci url (.networkFailure msg) =
        [StreamEvent.connected, StreamEvent.error msg]) ∧
    (∀ (b : Backend) (ci url raw : List Char),
      postEvents b ci url (.invalidJson raw) =
        [StreamEvent.connected, StreamEvent.error (invalidJsonMessage raw)]) := by
  refine ⟨?_, ?_, ?_⟩
  · intro b ci url status
    exact ⟨emitChunks (chunkText (mockOutput ci url) 700)
        (some [mockSource]) (some mockUsage), rfl, emitChunks_all_chunk _ _ _⟩
  · intro b ci url msg; rfl
  · intro b ci url raw; rfl

/-- C7: when the upstream reply's `output` is missing or empty, the
normalization substitutes a reply whose `output` is the non-empty repair
message (with a truncated dump of the received reply) and whose usage
counters are all zero; `normalizeReply` is a total function, so it never
fails. -/
theorem c7_missing_output_repair (r : N8nWebhookResponse)
    (h : r.output = none ∨ r.output = some []) :
    normalizeReply r =
      ⟨some (synthOutput r), some [], some ⟨0, 0, 0⟩⟩ ∧
    synthOutput r ≠ [] := by
  refine ⟨by rw [normalizeReply, if_pos h], ?_⟩
  intro hx
  rw [synthOutput] at hx
  have hc := congrArg List.length hx
  simp [List.length_append] at hc

/-- C7 witness: the reply `{"sources":[]}` (no `output`) is repaired. -/
theorem c7_witness :
    (N8nWebhookResponse.mk none (some []) none).output = none ∧
    (normalizeReply ⟨none, some [], none⟩ =
        ⟨some (synthOutput ⟨none, some [], none⟩), some [], some ⟨0, 0, 0⟩⟩ ∧
      synthOutput ⟨none, some [], none⟩ ≠ []) :=
  ⟨rfl, c7_missing_output_repair _ (Or.inl rfl)⟩

/-- C8 counterexample: the whitespace-only text `" "` is a non-empty input
for which `chunkText` returns no segment at all. -/
theorem c8_counterexample :
    " ".toList ≠ [] ∧ chunkText " ".toList 700 = [] := by decide

/-- C8 amended: for every input containing at least one non-whitespace
character and chunk size at least 1, `chunkText` returns at least one
segment, every returned segment is non-empty and already trimmed
(hence non-empty after trimming), and in the emitted chunk events
`isLast` is true exactly on the final one. -/
theorem c8_chunk_segments (text : List Char) (n : Nat) (hn : 1 ≤ n)
    (hc : ∃ c ∈ text, isWs c = false) :
    chunkText text n ≠ [] ∧
    (∀ seg ∈ chunkText text n, seg ≠ [] ∧ trimChars seg = seg) ∧
    (∀ (s : Option (List Source)) (u : Option Usage),
      (emitChunks (chunkText text n) s u).map evIsLast =
        List.replicate ((chunkText text n).length - 1) false ++ [true]) := by
  rcases hc with ⟨c, hcm, hcw⟩
  have hne := chunkText_ne_nil hn hcm hcw
  refine ⟨hne, ?_, ?_⟩
  · intro seg hseg
    have h1 : 0 < seg.length := by simpa using (List.mem_filter.mp hseg).2
    have hmem : seg ∈ chunkTextLoop text n 0 text.length := (List.mem_filter.mp hseg).1
    rcases chunkTextLoop_mem hmem with ⟨a, _, hs⟩
    refine ⟨?_, ?_⟩
    · intro h0
      rw [h0] at h1
      simp at h1
    · rw [hs, trimChars_idem]
  · intro s u
    exact emitChunks_isLast_map s u hne

/-- C8 witness: the amended statement at text `"Hola. Mundo"` and `n = 700`. -/
theorem c8_witness :
    ((1 ≤ 700) ∧ (∃ c ∈ "Hola. Mundo".toList, isWs c = false)) ∧
    (chunkText "Hola. Mundo".toList 700 ≠ [] ∧
     (∀ seg ∈ chunkText "Hola. Mundo".toList 700, seg ≠ [] ∧ trimChars seg = seg) ∧
     (∀ (s : Option (List Source)) (u : Option Usage),
       (emitChunks (chunkText "Hola. Mundo".toList 700) s u).map evIsLast =
         List.replicate ((chunkText "Hola. Mundo".toList 700).length - 1) false ++ [true])) :=
  ⟨⟨by decide, by decide⟩, c8_chunk_segments "Hola. Mundo".toList 700 (by decide) (by decide)⟩

/-- C9: for every text and chunk size at least 1, the scan position
strictly increases on every iteration, and any fuel of at least
`text.length` iterations yields the same (finite) segment list —
`chunkText`'s loop terminates within `text.length` iterations. -/
theorem c9_chunkText_terminates (text : List Char) (n : Nat) (hn : 1 ≤ n) :
    (∀ cur, cur < text.length → cur < nextEndIndex text n cur) ∧
    (∀ fuel, text.length ≤ fuel →
      (chunkTextLoop text n 0 fuel).filter (fun c => 0 < c.length) =
        chunkText text n) := by
  constructor
  · intro cur hc
    exact nextEndIndex_lt hn hc
  · intro fuel hf
    rw [chunkText]
    congr 1
    exact chunkTextLoop_fuel_eq hn fuel _ (by omega) (by omega)

/-- C9 witness: progress and fuel-independence at a concrete text. -/
theorem c9_witness :
    (1 ≤ 5) ∧
    (5 < nextEndIndex "Hola. Mundo grande".toList 5 5 ∧
     (chunkTextLoop "Hola. Mundo grande".toList 5 0 99).filter (fun c => 0 < c.length) =
       chunkText "Hola. Mundo grande".toList 5) :=
  ⟨by decide,
    (c9_chunkText_terminates "Hola. Mundo grande".toList 5 (by decide)).1 5 (by decide),
    (c9_chunkText_terminates "Hola. Mundo grande".toList 5 (by decide)).2 99 (by decide)⟩

/-- C10: every segment is a whitespace-trimmed contiguous substring of the
input of length at most `chunkSize + 1`; and the bound is tight — the
terminator cut can land one character past the window end, as witnessed at
`chunkText "aaaaa.bb" 5` whose first segment has length 6. -/
theorem c10_segment_bounds (text : List Char) (n : Nat) (hn : 1 ≤ n) :
    (∀ seg ∈ chunkText text n, seg.length ≤ n + 1 ∧
      ∃ l, l <:+: text ∧ seg = trimChars l) ∧
    (∃ seg ∈ chunkText "aaaaa.bb".toList 5, seg.length = 5 + 1) := by
  constructor
  · intro seg hseg
    have hmem : seg ∈ chunkTextLoop text n 0 text.length := (List.mem_filter.mp hseg).1
    rcases chunkTextLoop_mem hmem with ⟨a, _, hs⟩
    constructor
    · rw [hs]
      calc (trimChars (sliceChars text a (nextEndIndex text n a))).length
          ≤ (sliceChars text a (nextEndIndex text n a)).length := length_trimChars_le _
        _ ≤ nextEndIndex text n a - a := length_sliceChars_le _ _ _
        _ ≤ n + 1 := by
            have := @nextEndIndex_le text n a
            omega
    · exact ⟨sliceChars text a (nextEndIndex text n a), sliceChars_isInfix _ _ _, hs⟩
  · decide

/-- C10 witness: the hypothesis and conclusion at text `"Hola. Mundo"`,
`n = 4`. -/
theorem c10_witness :
    (1 ≤ 4) ∧
    ((∀ seg ∈ chunkText "Hola. Mundo".toList 4, seg.length ≤ 4 + 1 ∧
       ∃ l, l <:+: "Hola. Mundo".toList ∧ seg = trimChars l) ∧
     (∃ seg ∈ chunkText "aaaaa.bb".toList 5, seg.length = 5 + 1)) :=
  ⟨by decide, c10_segment_bounds "Hola. Mundo".toList 4 (by decide)⟩

/-- C2 counterexample: in the two-read fragmentation scenario (read 1 ends
mid-line of record 1; read 2 completes that line and carries record 2 in
full) the consumer produces one event, not two, and the first chunk's
content is lost. -/
theorem c2_counterexample :
    (consumeStream (c2Reads 30)).parsedEvents.length = 1 ∧
    (consumeStream (c2Reads 30)).content ≠ "Hola mundo".toList := by decide

/-- C2 amended: the consumer keeps no carry-over buffer — each read is
split on newlines by itself. For every split point `k` inside record 1's
line, the event whose line is split across the two reads is dropped (its
fragments fail the `data: ` prefix check or the JSON parse) and exactly
the second event is produced. -/
theorem c2_no_carry_over :
    ∀ k < 55, 1 ≤ k →
      (consumeStream (c2Reads k)).content = "mundo".toList ∧
      (consumeStream (c2Reads k)).parsedEvents.length = 1 ∧
      (consumeStream (c2Reads k)).sources = none ∧
      (consumeStream (c2Reads k)).usage = none := by decide

/-- C2 witness: the amended statement at split point `k = 20`. -/
theorem c2_witness :
    ((20 < 55) ∧ (1 ≤ 20)) ∧
    ((consumeStream (c2Reads 20)).content = "mundo".toList ∧
     (consumeStream (c2Reads 20)).parsedEvents.length = 1 ∧
     (consumeStream (c2Reads 20)).sources = none ∧
     (consumeStream (c2Reads 20)).usage = none) :=
  ⟨⟨by decide, by decide⟩, c2_no_carry_over 20 (by decide) (by decide)⟩

/-- C6 counterexample: a byte stream that ends right after a `Chunk` with
`isLast:false` (no `Done`/`Error` ever) leaves the consumer with the
partial message retained as if complete — the loop finishes normally, no
failure is surfaced. -/
theorem c6_counterexample :
    (consumeStream [c6Read]).content = "Hola".toList ∧
    (consumeStream [c6Read]).sources = none ∧
    (consumeStream [c6Read]).usage = none ∧
    (consumeStream [c6Read]).parsedEvents.length = 2 := by decide

/-- C6 amended: the consumer performs no terminal-event bookkeeping at all:
for any byte stream, appending a proper `done` record changes nothing in
the caller-visible message state — an abruptly closed stream is
indistinguishable from a properly terminated one, and neither produces a
failure (the read loop is a total fold; every throw inside it is caught by
the per-line catch). -/
theorem c6_silent_completion (reads : List (List Char)) :
    (consumeStream (reads ++ [sseRecord doneJson])).content =
      (consumeStream reads).content ∧
    (consumeStream (reads ++ [sseRecord doneJson])).sources =
      (consumeStream reads).sources ∧
    (consumeStream (reads ++ [sseRecord doneJson])).usage =
      (consumeStream reads).usage := by
  have h : consumeStream (reads ++ [sseRecord doneJson]) =
      processRead (consumeStream reads) (sseRecord doneJson) := by
    rw [consumeStream, consumeStream, List.foldl_append]
    rfl
  rw [h, processRead_done]
  exact ⟨rfl, rfl, rfl⟩

end ChatbotModel
